import Mathlib

/-!
Shallow embedding of `src/pipeline.py`, a linear pandas pipeline over a
health-survey table: `audit_data`, `clean_data`, `add_features`.

Modelling choices:
* A raw cell (`Cell`) is either a numeric value (`num`, covering values that
  are numeric or numeric-parsable strings), unparseable text (`str`), or a
  missing value (`na`, pandas NaN).  `pd.to_numeric(errors="coerce")` is
  `toNumeric`, sending `str` and `na` to `none`.
* Machine floats are idealised as `ℚ`; `NaN` in a measurement column is
  `Option.none`.  Comparisons with `NaN` are false in pandas, matching the
  `none → false` cases of the helpers below.
* `.round(k)` (numpy) rounds half to even; `rhe` implements that on `ℚ`.
* `Series.median()` skips missing values, sorts, and averages the two middle
  elements for even length; on an all-missing column it is `NaN` (`none`),
  and `fillna(NaN)` leaves missing values in place.
-/

/-- A raw table cell before numeric coercion. -/
inductive Cell where
  | num (q : ℚ)
  | str (s : String)
  | na
deriving DecidableEq, Repr

/-- `pd.to_numeric(errors="coerce")` on one cell. -/
def toNumeric : Cell → Option ℚ
  | Cell.num q => some q
  | Cell.str _ => none
  | Cell.na => none

/-- A raw row: the thirteen columns of `cardio_train.csv`. -/
structure Row where
  id : Cell
  age : Cell
  gender : Cell
  height : Cell
  weight : Cell
  ap_hi : Cell
  ap_lo : Cell
  cholesterol : Cell
  gluc : Cell
  smoke : Cell
  alco : Cell
  active : Cell
  cardio : Cell
deriving DecidableEq, Repr

/-- A cleaned row: the four measurement columns coerced to numeric-or-missing,
plus the derived `age_years`. -/
structure CRow where
  id : Cell
  age : Cell
  gender : Cell
  cholesterol : Cell
  gluc : Cell
  smoke : Cell
  alco : Cell
  active : Cell
  cardio : Cell
  age_years : Option ℚ
  height : Option ℚ
  weight : Option ℚ
  ap_hi : Option ℚ
  ap_lo : Option ℚ
deriving DecidableEq, Repr

/-- Round half to even (numpy rounding of `ℚ` to an integer). -/
def rhe (q : ℚ) : ℤ :=
  let f := ⌊q⌋
  let r := q - f
  if r < 1 / 2 then f
  else if r = 1 / 2 then (if f % 2 = 0 then f else f + 1)
  else f + 1

/-- Round to a fixed denominator: `roundTo 10 q` is numpy `round(q, 1)`,
`roundTo 100 q` is `round(q, 2)`. -/
def roundTo (k : ℚ) (q : ℚ) : ℚ := (rhe (q * k) : ℚ) / k

/-- `round(age_days / 365.25, 1)` — the `age_years` derivation. -/
def ageYears (a : ℚ) : ℚ := roundTo 10 (a / (1461 / 4))

/-- Keep-first deduplication with an accumulator of already-seen rows
(`df.drop_duplicates()` keeps the first occurrence, preserving order). -/
def dropDupAux {α : Type} [DecidableEq α] : List α → List α → List α
  | _, [] => []
  | seen, x :: xs =>
      if x ∈ seen then dropDupAux seen xs
      else x :: dropDupAux (x :: seen) xs

/-- `df.drop_duplicates()`. -/
def dropDuplicates {α : Type} [DecidableEq α] (l : List α) : List α :=
  dropDupAux [] l

/-- Steps 2–3 of `clean_data`: derive `age_years` and coerce the four
measurement columns to numeric-or-missing. -/
def coerceRow (r : Row) : CRow :=
  { id := r.id, age := r.age, gender := r.gender,
    cholesterol := r.cholesterol, gluc := r.gluc, smoke := r.smoke,
    alco := r.alco, active := r.active, cardio := r.cardio,
    age_years := (toNumeric r.age).map ageYears,
    height := toNumeric r.height, weight := toNumeric r.weight,
    ap_hi := toNumeric r.ap_hi, ap_lo := toNumeric r.ap_lo }

/-- `df.loc[~col.between(lo, hi), col] = NaN` on one value: a present value
outside `[lo, hi]` becomes missing (`NaN.between` is false, so missing stays
missing). -/
def rangeFilter (lo hi : ℚ) (v : Option ℚ) : Option ℚ :=
  match v with
  | none => none
  | some x => if lo ≤ x ∧ x ≤ hi then some x else none

/-- Step 4 of `clean_data`: physiological range validation, independent per
column. -/
def rangeRow (r : CRow) : CRow :=
  { r with
    height := rangeFilter 120 220 r.height,
    weight := rangeFilter 35 200 r.weight,
    ap_hi := rangeFilter 70 250 r.ap_hi,
    ap_lo := rangeFilter 40 150 r.ap_lo }

/-- Step 5 of `clean_data`: if both pressures are present and
`ap_hi <= ap_lo`, null both; otherwise leave the row unchanged. -/
def bpRow (r : CRow) : CRow :=
  match r.ap_hi, r.ap_lo with
  | some hi, some lo =>
      if hi ≤ lo then { r with ap_hi := none, ap_lo := none } else r
  | _, _ => r

/-- `Series.median()`: skip missing values (the caller passes the non-missing
values), sort, take the middle element, or the mean of the two middle ones for
even length; `none` on an empty (all-missing) column. -/
def median (l : List ℚ) : Option ℚ :=
  let n := l.length
  let s := l.insertionSort (· ≤ ·)
  if n = 0 then none
  else if n % 2 = 1 then some (s.getD (n / 2) 0)
  else some ((s.getD (n / 2 - 1) 0 + s.getD (n / 2) 0) / 2)

/-- `Series.fillna(m)` on one value (`fillna(NaN)` leaves `NaN` in place). -/
def fillna (m : Option ℚ) (v : Option ℚ) : Option ℚ :=
  match v with
  | some x => some x
  | none => m

/-- One iteration of the imputation loop: compute the column's median over its
currently non-missing values and fill that column's missing entries with it. -/
def fillCol (get : CRow → Option ℚ) (set : CRow → Option ℚ → CRow)
    (rows : List CRow) : List CRow :=
  let m := median (rows.filterMap get)
  rows.map (fun r => set r (fillna m (get r)))

def setHeight (r : CRow) (v : Option ℚ) : CRow := { r with height := v }
def setWeight (r : CRow) (v : Option ℚ) : CRow := { r with weight := v }
def setApHi (r : CRow) (v : Option ℚ) : CRow := { r with ap_hi := v }
def setApLo (r : CRow) (v : Option ℚ) : CRow := { r with ap_lo := v }

/-- Step 6 of `clean_data`: the `for col in [...]` median-imputation loop, in
source order (`height`, `weight`, `ap_hi`, `ap_lo`). -/
def imputeRows (rows : List CRow) : List CRow :=
  fillCol CRow.ap_lo setApLo
    (fillCol CRow.ap_hi setApHi
      (fillCol CRow.weight setWeight
        (fillCol CRow.height setHeight rows)))

/-- Steps 1–5 of `clean_data`: everything before imputation. -/
def preImpute (df : List Row) : List CRow :=
  List.map bpRow (List.map rangeRow (List.map coerceRow (dropDuplicates df)))

/-- `clean_data`. -/
def clean_data (df : List Row) : List CRow :=
  imputeRows (preImpute df)

/-- A feature-augmented row: cleaned row plus `bmi`, `pulse_pressure` and the
two integer risk flags. -/
structure FRow where
  id : Cell
  age : Cell
  gender : Cell
  cholesterol : Cell
  gluc : Cell
  smoke : Cell
  alco : Cell
  active : Cell
  cardio : Cell
  age_years : Option ℚ
  height : Option ℚ
  weight : Option ℚ
  ap_hi : Option ℚ
  ap_lo : Option ℚ
  bmi : Option ℚ
  pulse_pressure : Option ℚ
  hypertension : ℤ
  obesity : ℤ
deriving DecidableEq, Repr

/-- `series >= c` on one value: comparison with `NaN` is false. -/
def oge (v : Option ℚ) (c : ℚ) : Bool :=
  match v with
  | some x => decide (c ≤ x)
  | none => false

/-- `round(weight / (height/100)**2, 2)` on one row; missing (`NaN`) if either
input is missing. -/
def bmiOf (height weight : Option ℚ) : Option ℚ :=
  match height, weight with
  | some h, some w => some (roundTo 100 (w / (h / 100) ^ 2))
  | _, _ => none

/-- `ap_hi - ap_lo` on one row; missing if either input is missing. -/
def ppOf (hi lo : Option ℚ) : Option ℚ :=
  match hi, lo with
  | some a, some b => some (a - b)
  | _, _ => none

/-- `add_features` on one row: `bmi`, `pulse_pressure`, and the risk flags
`hypertension = (ap_hi >= 140) | (ap_lo >= 90)` and `obesity = bmi >= 30`,
cast to integers. -/
def featureRow (r : CRow) : FRow :=
  let b := bmiOf r.height r.weight
  { id := r.id, age := r.age, gender := r.gender,
    cholesterol := r.cholesterol, gluc := r.gluc, smoke := r.smoke,
    alco := r.alco, active := r.active, cardio := r.cardio,
    age_years := r.age_years, height := r.height, weight := r.weight,
    ap_hi := r.ap_hi, ap_lo := r.ap_lo,
    bmi := b,
    pulse_pressure := ppOf r.ap_hi r.ap_lo,
    hypertension := if oge r.ap_hi 140 || oge r.ap_lo 90 then 1 else 0,
    obesity := if oge b 30 then 1 else 0 }

/-- `add_features`: row-wise derivation over the cleaned table. -/
def add_features (df : List CRow) : List FRow :=
  df.map featureRow

/-- Whether a raw cell is missing (`isna`): a string cell is data, not `NaN`. -/
def isna : Cell → Bool
  | Cell.na => true
  | _ => false

/-- The thirteen column accessors of the raw table, in schema order. -/
def colList : List (Row → Cell) :=
  [Row.id, Row.age, Row.gender, Row.height, Row.weight, Row.ap_hi, Row.ap_lo,
   Row.cholesterol, Row.gluc, Row.smoke, Row.alco, Row.active, Row.cardio]

/-- `df[col].isna().mean()`: the fraction of rows missing a value in one
column (for the empty table this is `0/0 = 0` in `ℚ`, where pandas yields
`NaN`; theorems below therefore assume a nonempty table). -/
def missingFrac (df : List Row) (c : Row → Cell) : ℚ :=
  ((df.countP (fun r => isna (c r)) : ℚ)) / (df.length : ℚ)

/-- `df.duplicated().sum()`: the number of rows equal to some earlier row
(first occurrences are not marked). -/
def dupCount (df : List Row) : ℕ :=
  (List.range df.length).countP
    (fun i => decide (∃ j ∈ List.range i, df.get? j = df.get? i))

/-- The audit summary row produced by `audit_data`.  The source field
`max_missing_ratio` is called `max_missing_frac` here. -/
structure Audit where
  rows : ℕ
  columns : ℕ
  duplicates : ℕ
  max_missing_frac : ℚ
deriving DecidableEq, Repr

/-- `audit_data`: row count, column count, duplicate count, and the maximum
per-column missing fraction (`df.isna().mean().max()`). -/
def audit_data (df : List Row) : Audit :=
  { rows := df.length,
    columns := colList.length,
    duplicates := dupCount df,
    max_missing_frac := (colList.map (missingFrac df)).foldr max 0 }

/-- A fully valid raw row, parameterised by `id` and the blood pressures. -/
def mkRow (i hi lo : ℚ) : Row :=
  { id := Cell.num i, age := Cell.num 14610, gender := Cell.num 1,
    height := Cell.num 160, weight := Cell.num 70,
    ap_hi := Cell.num hi, ap_lo := Cell.num lo,
    cholesterol := Cell.num 1, gluc := Cell.num 1, smoke := Cell.num 0,
    alco := Cell.num 0, active := Cell.num 0, cardio := Cell.num 0 }

/-- Example table: the first row has a valid `ap_hi = 80` but an out-of-range
`ap_lo = 30`; the second row is a valid pair `150/100`. -/
def exBP : List Row := [mkRow 1 80 30, mkRow 2 150 100]

/-- Example table: one row whose `height` cell is unparseable text, so the
`height` column is all-missing before imputation. -/
def exH : List Row :=
  [{ mkRow 1 120 80 with height := Cell.str "tall" }]


/-! ### Helper lemmas about the imputation loop -/

/-- All four fills applied at once, each with a fixed fill value. -/
def fillFour (m1 m2 m3 m4 : Option ℚ) (r : CRow) : CRow :=
  { r with
    height := fillna m1 r.height, weight := fillna m2 r.weight,
    ap_hi := fillna m3 r.ap_hi, ap_lo := fillna m4 r.ap_lo }

@[simp] theorem setHeight_height (r : CRow) (v : Option ℚ) : (setHeight r v).height = v := rfl
@[simp] theorem setHeight_weight (r : CRow) (v : Option ℚ) : (setHeight r v).weight = r.weight := rfl
@[simp] theorem setHeight_ap_hi (r : CRow) (v : Option ℚ) : (setHeight r v).ap_hi = r.ap_hi := rfl
@[simp] theorem setHeight_ap_lo (r : CRow) (v : Option ℚ) : (setHeight r v).ap_lo = r.ap_lo := rfl
@[simp] theorem setWeight_height (r : CRow) (v : Option ℚ) : (setWeight r v).height = r.height := rfl
@[simp] theorem setWeight_weight (r : CRow) (v : Option ℚ) : (setWeight r v).weight = v := rfl
@[simp] theorem setWeight_ap_hi (r : CRow) (v : Option ℚ) : (setWeight r v).ap_hi = r.ap_hi := rfl
@[simp] theorem setWeight_ap_lo (r : CRow) (v : Option ℚ) : (setWeight r v).ap_lo = r.ap_lo := rfl
@[simp] theorem setApHi_height (r : CRow) (v : Option ℚ) : (setApHi r v).height = r.height := rfl
@[simp] theorem setApHi_weight (r : CRow) (v : Option ℚ) : (setApHi r v).weight = r.weight := rfl
@[simp] theorem setApHi_ap_hi (r : CRow) (v : Option ℚ) : (setApHi r v).ap_hi = v := rfl
@[simp] theorem setApHi_ap_lo (r : CRow) (v : Option ℚ) : (setApHi r v).ap_lo = r.ap_lo := rfl
@[simp] theorem setApLo_height (r : CRow) (v : Option ℚ) : (setApLo r v).height = r.height := rfl
@[simp] theorem setApLo_weight (r : CRow) (v : Option ℚ) : (setApLo r v).weight = r.weight := rfl
@[simp] theorem setApLo_ap_hi (r : CRow) (v : Option ℚ) : (setApLo r v).ap_hi = r.ap_hi := rfl
@[simp] theorem setApLo_ap_lo (r : CRow) (v : Option ℚ) : (setApLo r v).ap_lo = v := rfl

/-- The sequential imputation loop equals a single map in which each column is
filled with the median of that column's non-missing values in the input list:
earlier iterations touch only their own column, so each later median is
computed over untouched values. -/
theorem filterMap_map_invariant (g : CRow → Option ℚ) (f : CRow → CRow)
    (h : ∀ r, g (f r) = g r) (l : List CRow) :
    (l.map f).filterMap g = l.filterMap g := by
  rw [List.filterMap_map]
  congr 1
  funext r
  exact h r

/-- The sequential imputation loop equals a single map in which each column is
filled with the median of that column's non-missing values in the input list:
earlier iterations touch only their own column, so each later median is
computed over untouched values. -/
theorem imputeRows_eq (rows : List CRow) :
    imputeRows rows =
      rows.map (fillFour
        (median (rows.filterMap CRow.height))
        (median (rows.filterMap CRow.weight))
        (median (rows.filterMap CRow.ap_hi))
        (median (rows.filterMap CRow.ap_lo))) := by
  simp only [imputeRows, fillCol]
  rw [filterMap_map_invariant CRow.weight
        (fun r => setHeight r (fillna (median (List.filterMap CRow.height rows)) r.height))
        (fun _ => rfl) rows]
  rw [filterMap_map_invariant CRow.ap_hi
        (fun r => setWeight r (fillna (median (List.filterMap CRow.weight rows)) r.weight))
        (fun _ => rfl)]
  rw [filterMap_map_invariant CRow.ap_hi
        (fun r => setHeight r (fillna (median (List.filterMap CRow.height rows)) r.height))
        (fun _ => rfl) rows]
  rw [filterMap_map_invariant CRow.ap_lo
        (fun r => setApHi r (fillna (median (List.filterMap CRow.ap_hi rows)) r.ap_hi))
        (fun _ => rfl)]
  rw [filterMap_map_invariant CRow.ap_lo
        (fun r => setWeight r (fillna (median (List.filterMap CRow.weight rows)) r.weight))
        (fun _ => rfl)]
  rw [filterMap_map_invariant CRow.ap_lo
        (fun r => setHeight r (fillna (median (List.filterMap CRow.height rows)) r.height))
        (fun _ => rfl) rows]
  simp only [List.map_map]
  congr 1

/-- The cleaned row at index `i` is the pre-imputation row at index `i` with
each measurement column filled by that column's pre-imputation median. -/
theorem clean_data_get? (df : List Row) (i : ℕ) :
    (clean_data df).get? i = ((preImpute df).get? i).map
      (fillFour
        (median ((preImpute df).filterMap CRow.height))
        (median ((preImpute df).filterMap CRow.weight))
        (median ((preImpute df).filterMap CRow.ap_hi))
        (median ((preImpute df).filterMap CRow.ap_lo))) := by
  rw [clean_data, imputeRows_eq, List.get?_map]

/-! ### C3: the blood-pressure consistency step -/

/-- C3: in the blood-pressure consistency step, when both `ap_hi` and `ap_lo`
are present and `ap_hi <= ap_lo`, both fields are set to missing; when either
is missing, or both are present with `ap_hi > ap_lo`, the row is unchanged. -/
theorem C3_bp_step (r : CRow) :
    (∀ hi lo, r.ap_hi = some hi → r.ap_lo = some lo → hi ≤ lo →
      bpRow r = { r with ap_hi := none, ap_lo := none }) ∧
    ((r.ap_hi = none ∨ r.ap_lo = none ∨
        ∃ hi lo, r.ap_hi = some hi ∧ r.ap_lo = some lo ∧ lo < hi) →
      bpRow r = r) := by
  constructor
  · intro hi lo hhi hlo hle
    simp [bpRow, hhi, hlo, hle]
  · intro h
    rcases h with h | h | ⟨hi, lo, hhi, hlo, hlt⟩
    · simp [bpRow, h]
    · cases hhi : r.ap_hi <;> simp [bpRow, h, hhi]
    · simp [bpRow, hhi, hlo, not_le.mpr hlt]

/-- A concrete cleaned row at the claim's boundary values:
`bmi = 120/(2.0)^2 = 30` exactly and `ap_hi = 140` exactly. -/
def crW : CRow :=
  { id := Cell.num 1, age := Cell.num 14610, gender := Cell.num 1,
    cholesterol := Cell.num 1, gluc := Cell.num 1, smoke := Cell.num 0,
    alco := Cell.num 0, active := Cell.num 0, cardio := Cell.num 0,
    age_years := some 40, height := some 200, weight := some 120,
    ap_hi := some 140, ap_lo := some 80 }

/-- C3 witness: a concrete row with `ap_hi = 80 <= 120 = ap_lo` is nulled on
both pressure fields by the consistency step. -/
theorem C3_witness :
    bpRow { crW with ap_hi := some 80, ap_lo := some 120 } =
      { crW with ap_hi := none, ap_lo := none } :=
  (C3_bp_step { crW with ap_hi := some 80, ap_lo := some 120 }).1 80 120
    rfl rfl (by norm_num)

/-! ### C6: the risk flags of `add_features` -/

/-- C6: in every row returned by `add_features`, the flags take only the
values 0 and 1, `obesity = 1` iff the (rounded) `bmi` is present and at least
30, and `hypertension = 1` iff `ap_hi` is present and at least 140 or `ap_lo`
is present and at least 90 (boundary equality counts). -/
theorem C6_risk_flags (df : List CRow) (q : FRow) (hq : q ∈ add_features df) :
    (q.obesity = 0 ∨ q.obesity = 1) ∧
    (q.hypertension = 0 ∨ q.hypertension = 1) ∧
    (q.obesity = 1 ↔ ∃ b, q.bmi = some b ∧ 30 ≤ b) ∧
    (q.hypertension = 1 ↔
      ((∃ hi, q.ap_hi = some hi ∧ 140 ≤ hi) ∨
       (∃ lo, q.ap_lo = some lo ∧ 90 ≤ lo))) := by
  obtain ⟨r, _, rfl⟩ := List.mem_map.mp hq
  refine ⟨?_, ?_, ?_, ?_⟩
  · simp only [featureRow]
    split <;> simp
  · simp only [featureRow]
    split <;> simp
  · simp only [featureRow]
    cases hb : bmiOf r.height r.weight with
    | none => simp [oge, hb]
    | some b =>
        by_cases h30 : (30 : ℚ) ≤ b <;> simp [oge, hb, h30]
  · simp only [featureRow]
    cases hhi : r.ap_hi with
    | none =>
        cases hlo : r.ap_lo with
        | none => simp [oge, hhi, hlo]
        | some lo => by_cases h90 : (90 : ℚ) ≤ lo <;> simp [oge, hhi, hlo, h90]
    | some hi =>
        cases hlo : r.ap_lo with
        | none => by_cases h140 : (140 : ℚ) ≤ hi <;> simp [oge, hhi, hlo, h140]
        | some lo =>
            by_cases h140 : (140 : ℚ) ≤ hi <;>
              by_cases h90 : (90 : ℚ) ≤ lo <;>
                simp [oge, hhi, hlo, h140, h90]

/-- C6 witness: on a concrete row with `bmi` exactly 30 and `ap_hi` exactly
140, both flags are 1. -/
theorem C6_witness :
    (featureRow crW).obesity = 1 ∧ (featureRow crW).hypertension = 1 := by
  have h := C6_risk_flags [crW] (featureRow crW) (by simp [add_features])
  refine ⟨h.2.2.1.mpr ⟨30, ?_, by norm_num⟩,
         h.2.2.2.mpr (Or.inl ⟨140, rfl, by norm_num⟩)⟩
  show bmiOf (some 200) (some 120) = some 30
  norm_num [bmiOf, roundTo, rhe]

/-! ### C7: `age_years` derivation and monotonicity -/

theorem rhe_ge (q : ℚ) : ⌊q⌋ ≤ rhe q := by
  simp only [rhe]
  split_ifs <;> omega

theorem rhe_le (q : ℚ) : rhe q ≤ ⌊q⌋ + 1 := by
  simp only [rhe]
  split_ifs <;> omega

/-- Value of `rhe` below the half point. -/
theorem rhe_of_lt {q : ℚ} (h : q - ⌊q⌋ < 1 / 2) : rhe q = ⌊q⌋ := by
  simp only [rhe]
  rw [if_pos h]

/-- Value of `rhe` above the half point. -/
theorem rhe_of_gt {q : ℚ} (h : 1 / 2 < q - ⌊q⌋) : rhe q = ⌊q⌋ + 1 := by
  simp only [rhe]
  rw [if_neg (by linarith), if_neg (by linarith)]

/-- Round-half-to-even is monotone. -/
theorem rhe_mono {a b : ℚ} (h : a ≤ b) : rhe a ≤ rhe b := by
  rcases lt_or_le ⌊a⌋ ⌊b⌋ with hf | hf
  · calc rhe a ≤ ⌊a⌋ + 1 := rhe_le a
      _ ≤ ⌊b⌋ := by omega
      _ ≤ rhe b := rhe_ge b
  · have heq : ⌊a⌋ = ⌊b⌋ := le_antisymm (Int.floor_mono h) hf
    have hcast : ((⌊a⌋ : ℚ)) = (⌊b⌋ : ℚ) := by exact_mod_cast heq
    have hr : a - ⌊a⌋ ≤ b - ⌊b⌋ := by
      rw [← hcast]
      linarith
    rcases lt_trichotomy (a - ⌊a⌋) (1 / 2) with h1 | h1 | h1
    · rw [rhe_of_lt h1]
      calc ⌊a⌋ = ⌊b⌋ := heq
        _ ≤ rhe b := rhe_ge b
    · have h2 : (1 : ℚ) / 2 ≤ b - ⌊b⌋ := by
        rw [← h1]
        exact hr
      rcases lt_or_eq_of_le h2 with h3 | h3
      · rw [rhe_of_gt h3]
        calc rhe a ≤ ⌊a⌋ + 1 := rhe_le a
          _ = ⌊b⌋ + 1 := by omega
      · have hab : a = b := by linarith
        rw [hab]
    · have h2 : 1 / 2 < b - ⌊b⌋ := lt_of_lt_of_le h1 hr
      rw [rhe_of_gt h1, rhe_of_gt h2, heq]

/-- `ageYears` is monotone non-decreasing. -/
theorem ageYears_mono {a b : ℚ} (h : a ≤ b) : ageYears a ≤ ageYears b := by
  unfold ageYears roundTo
  have : rhe (a / (1461 / 4) * 10) ≤ rhe (b / (1461 / 4) * 10) := by
    apply rhe_mono
    nlinarith
  have h10 : ((rhe (a / (1461 / 4) * 10) : ℚ)) ≤ (rhe (b / (1461 / 4) * 10) : ℚ) := by
    exact_mod_cast this
  linarith

/-- C7: `clean_data` derives `age_years` as `round(age / 365.25, 1)` (the
one-decimal numpy rounding of `age / (1461/4)`), and this mapping is monotone
non-decreasing in `age`. -/
theorem C7_age_years :
    (∀ (r : Row) (a : ℚ), toNumeric r.age = some a →
        (coerceRow r).age_years = some (roundTo 10 (a / (1461 / 4)))) ∧
    (∀ a b : ℚ, a ≤ b → ageYears a ≤ ageYears b) := by
  constructor
  · intro r a h
    simp [coerceRow, h, ageYears]
  · intro a b h
    exact ageYears_mono h

/-- C7 witness: the concrete row with `age = 14610` days has
`age_years = 40.0`, and the mapping is monotone at `14610 ≤ 14975`. -/
theorem C7_witness :
    (coerceRow (mkRow 1 120 80)).age_years = some (roundTo 10 (14610 / (1461 / 4))) ∧
    ageYears 14610 ≤ ageYears 14975 :=
  ⟨C7_age_years.1 (mkRow 1 120 80) 14610 rfl,
   C7_age_years.2 14610 14975 (by norm_num)⟩

/-! ### C5: deduplication is idempotent -/

theorem mem_dropDupAux {α : Type} [DecidableEq α] {seen l : List α} {x : α}
    (hx : x ∈ dropDupAux seen l) : x ∉ seen ∧ x ∈ l := by
  induction l generalizing seen with
  | nil => simp [dropDupAux] at hx
  | cons a xs ih =>
      by_cases ha : a ∈ seen
      · simp only [dropDupAux, if_pos ha] at hx
        obtain ⟨h1, h2⟩ := ih hx
        exact ⟨h1, List.mem_cons_of_mem a h2⟩
      · simp only [dropDupAux, if_neg ha] at hx
        rcases List.mem_cons.mp hx with rfl | hx
        · exact ⟨ha, List.mem_cons_self x xs⟩
        · obtain ⟨h1, h2⟩ := ih hx
          have h1' : x ∉ seen := fun hc => h1 (List.mem_cons_of_mem a hc)
          have hxa : x ≠ a := fun hc => h1 (hc ▸ List.mem_cons_self a seen)
          exact ⟨h1', List.mem_cons_of_mem a h2⟩

theorem nodup_dropDupAux {α : Type} [DecidableEq α] (seen l : List α) :
    (dropDupAux seen l).Nodup := by
  induction l generalizing seen with
  | nil => simp [dropDupAux]
  | cons a xs ih =>
      by_cases ha : a ∈ seen
      · simp only [dropDupAux, if_pos ha]
        exact ih seen
      · simp only [dropDupAux, if_neg ha]
        refine List.nodup_cons.mpr ⟨?_, ih (a :: seen)⟩
        intro hc
        exact (mem_dropDupAux hc).1 (List.mem_cons_self a seen)

theorem dropDupAux_of_nodup {α : Type} [DecidableEq α] {l : List α}
    (hl : l.Nodup) : ∀ seen : List α, (∀ x ∈ l, x ∉ seen) →
    dropDupAux seen l = l := by
  induction l with
  | nil => intro seen _; rfl
  | cons a xs ih =>
      intro seen hs
      obtain ⟨hax, hxs⟩ := List.nodup_cons.mp hl
      have ha : a ∉ seen := hs a (List.mem_cons_self a xs)
      simp only [dropDupAux, if_neg ha]
      congr 1
      refine ih hxs (a :: seen) ?_
      intro x hx hc
      rcases List.mem_cons.mp hc with rfl | hc
      · exact hax hx
      · exact hs x (List.mem_cons_of_mem a hx) hc

/-- C5: the deduplication step of `clean_data` (keep-first
`drop_duplicates`) is idempotent: applying it twice to any raw table yields
the same table as applying it once. -/
theorem C5_dedup_idempotent (df : List Row) :
    dropDuplicates (dropDuplicates df) = dropDuplicates df := by
  unfold dropDuplicates
  exact dropDupAux_of_nodup (nodup_dropDupAux [] df) [] (fun x _ hc => by cases hc)

/-! ### Concrete evaluations on the example tables -/

/-- A cleaned-row literal matching `mkRow` after coercion. -/
def mkCRow (i : ℚ) (h w hi lo : Option ℚ) : CRow :=
  { id := Cell.num i, age := Cell.num 14610, gender := Cell.num 1,
    cholesterol := Cell.num 1, gluc := Cell.num 1, smoke := Cell.num 0,
    alco := Cell.num 0, active := Cell.num 0, cardio := Cell.num 0,
    age_years := some 40, height := h, weight := w, ap_hi := hi, ap_lo := lo }

def pA : CRow := mkCRow 1 (some 160) (some 70) (some 80) none
def pB : CRow := mkCRow 2 (some 160) (some 70) (some 150) (some 100)
def qA : CRow := mkCRow 1 (some 160) (some 70) (some 80) (some 100)

theorem preImpute_exBP : preImpute exBP = [pA, pB] := by
  norm_num [preImpute, exBP, dropDuplicates, dropDupAux, mkRow, mkCRow, pA, pB,
    coerceRow, rangeRow, bpRow, toNumeric, rangeFilter, ageYears, roundTo, rhe]

theorem clean_exBP : clean_data exBP = [qA, pB] := by
  rw [clean_data, preImpute_exBP]
  norm_num [imputeRows, fillCol, median, fillna, List.insertionSort,
    List.orderedInsert, List.filterMap_cons, setHeight, setWeight, setApHi,
    setApLo, mkCRow, pA, pB, qA]

/-! ### C4: median imputation -/

/-- C4: for each of the four measurement columns independently, the cleaned
value at any row index is the pre-imputation value when present, and otherwise
the median of that column's non-missing values after all nulling steps
(deduplication, coercion, range validation, blood-pressure consistency); each
median is taken over the pre-imputation column, i.e. computed once, not
incrementally during filling. -/
theorem C4_median_imputation (df : List Row) (i : ℕ) (p q : CRow)
    (h1 : (preImpute df).get? i = some p)
    (h2 : (clean_data df).get? i = some q) :
    q.height = fillna (median ((preImpute df).filterMap CRow.height)) p.height ∧
    q.weight = fillna (median ((preImpute df).filterMap CRow.weight)) p.weight ∧
    q.ap_hi = fillna (median ((preImpute df).filterMap CRow.ap_hi)) p.ap_hi ∧
    q.ap_lo = fillna (median ((preImpute df).filterMap CRow.ap_lo)) p.ap_lo := by
  rw [clean_data_get?, h1] at h2
  simp only [Option.map_some'] at h2
  obtain rfl := Option.some.inj h2
  exact ⟨rfl, rfl, rfl, rfl⟩

/-- C4 witness: on `exBP`, the missing `ap_lo` of the first row is filled with
the `ap_lo`-column median (100) computed after nulling, while the present
`ap_hi = 80` is left as is. -/
theorem C4_witness :
    qA.ap_hi = fillna (median ((preImpute exBP).filterMap CRow.ap_hi)) pA.ap_hi ∧
    qA.ap_lo = fillna (median ((preImpute exBP).filterMap CRow.ap_lo)) pA.ap_lo := by
  have h := C4_median_imputation exBP 0 pA qA
    (by rw [preImpute_exBP]; rfl) (by rw [clean_exBP]; rfl)
  exact ⟨h.2.2.1, h.2.2.2⟩

/-! ### C1: blood-pressure ordering of cleaned rows -/

/-- After the consistency step, any row with both pressures present has
`ap_lo < ap_hi`. -/
theorem bpRow_sound (r : CRow) (hi lo : ℚ)
    (hh : (bpRow r).ap_hi = some hi) (hl : (bpRow r).ap_lo = some lo) :
    lo < hi := by
  cases ha : r.ap_hi with
  | none => simp [bpRow, ha] at hh
  | some x =>
      cases hb : r.ap_lo with
      | none => simp [bpRow, ha, hb] at hl
      | some y =>
          by_cases hxy : x ≤ y
          · simp [bpRow, ha, hb, hxy] at hh
          · simp [bpRow, ha, hb, hxy] at hh hl
            push_neg at hxy
            rw [← hh, ← hl]
            exact hxy

/-- The property claimed by C1, as stated: every cleaned row whose pressures
were not *both* imputed (i.e. not both missing before imputation) satisfies
`ap_hi > ap_lo`. -/
def C1Prop (df : List Row) : Prop :=
  ∀ (i : ℕ) (p q : CRow),
    (preImpute df).get? i = some p → (clean_data df).get? i = some q →
    ¬(p.ap_hi = none ∧ p.ap_lo = none) →
    ∃ hi lo, q.ap_hi = some hi ∧ q.ap_lo = some lo ∧ lo < hi

/-- C1 counterexample: in `exBP`, the first row keeps its valid `ap_hi = 80`
but has only `ap_lo` imputed (to the column median 100), ending with
`ap_hi = 80 <= 100 = ap_lo` although the pair was not both-imputed. -/
theorem C1_counterexample : ¬ C1Prop exBP := by
  intro h
  have hx := h 0 pA qA (by rw [preImpute_exBP]; rfl) (by rw [clean_exBP]; rfl)
    (by simp [pA, mkCRow])
  obtain ⟨hi, lo, hhi, hlo, hlt⟩ := hx
  simp [qA, mkCRow] at hhi hlo
  rw [← hhi, ← hlo] at hlt
  norm_num at hlt

/-- C1 amended: every cleaned row in which *neither* pressure was imputed
(both present before imputation) satisfies `ap_hi > ap_lo`; equivalently, no
surviving row whose pair is entirely non-imputed has `ap_hi <= ap_lo`. -/
theorem C1_nonimputed_pair_ordered (df : List Row) (i : ℕ) (p q : CRow)
    (h1 : (preImpute df).get? i = some p)
    (h2 : (clean_data df).get? i = some q)
    (hi lo : ℚ) (hh : p.ap_hi = some hi) (hl : p.ap_lo = some lo) :
    q.ap_hi = some hi ∧ q.ap_lo = some lo ∧ lo < hi := by
  rw [clean_data_get?, h1] at h2
  simp only [Option.map_some'] at h2
  obtain rfl := Option.some.inj h2
  have hbp : lo < hi := by
    have h1' := h1
    unfold preImpute at h1'
    rw [List.get?_map] at h1'
    cases hy : (List.map rangeRow (List.map coerceRow (dropDuplicates df))).get? i with
    | none => rw [hy] at h1'; simp at h1'
    | some r2 =>
        rw [hy] at h1'
        simp only [Option.map_some'] at h1'
        obtain rfl := Option.some.inj h1'
        exact bpRow_sound r2 hi lo hh hl
  exact ⟨by simp [fillFour, fillna, hh], by simp [fillFour, fillna, hl], hbp⟩

/-- C1 witness: the second row of `exBP` has both pressures non-imputed and
the cleaned row indeed satisfies `ap_lo = 100 < 150 = ap_hi`. -/
theorem C1_witness :
    pB.ap_hi = some 150 ∧ pB.ap_lo = some 100 ∧ (100 : ℚ) < 150 := by
  have h := C1_nonimputed_pair_ordered exBP 1 pB pB
    (by rw [preImpute_exBP]; rfl) (by rw [clean_exBP]; rfl)
    150 100 rfl rfl
  exact ⟨h.1, h.2.1, h.2.2⟩

/-! ### C2: no missing values after cleaning -/

/-- The median of a nonempty value list is defined. -/
theorem median_isSome {l : List ℚ} (h : l ≠ []) : (median l).isSome := by
  simp only [median]
  rw [if_neg (fun hc => h (List.length_eq_zero.mp hc))]
  split <;> simp

/-- The cleaned first row of `exH`: its `height` is still missing. -/
def qH : CRow := mkCRow 1 none (some 70) (some 120) (some 80)

theorem clean_exH : clean_data exH = [qH] := by
  norm_num [clean_data, preImpute, imputeRows, fillCol, median, fillna, exH,
    dropDuplicates, dropDupAux, mkRow, mkCRow, qH, coerceRow, rangeRow, bpRow,
    toNumeric, rangeFilter, ageYears, roundTo, rhe, List.insertionSort,
    List.orderedInsert, List.filterMap_cons, setHeight, setWeight, setApHi,
    setApLo]

/-- The property claimed by C2, as stated, for one table: after `clean_data`,
the four measurement columns have no missing value in any row. -/
def C2Prop (df : List Row) : Prop :=
  ∀ q ∈ clean_data df,
    q.height.isSome ∧ q.weight.isSome ∧ q.ap_hi.isSome ∧ q.ap_lo.isSome

/-- C2 counterexample: on the one-row table `exH` whose `height` cell is
unparseable, the `height` column is all-missing before imputation, its median
is undefined, and the cleaned row still has a missing `height`. -/
theorem C2_counterexample : ¬ C2Prop exH := by
  intro h
  have hx := (h qH (by rw [clean_exH]; exact List.mem_singleton.mpr rfl)).1
  simp [qH, mkCRow] at hx

/-- C2 amended: if each of the four measurement columns still has at least one
non-missing value after the nulling steps (so its median is defined), then the
cleaned columns contain no missing values in any row. -/
theorem C2_no_missing_after_clean (df : List Row) (q : CRow)
    (hq : q ∈ clean_data df)
    (hH : (preImpute df).filterMap CRow.height ≠ [])
    (hW : (preImpute df).filterMap CRow.weight ≠ [])
    (hHi : (preImpute df).filterMap CRow.ap_hi ≠ [])
    (hLo : (preImpute df).filterMap CRow.ap_lo ≠ []) :
    q.height.isSome ∧ q.weight.isSome ∧ q.ap_hi.isSome ∧ q.ap_lo.isSome := by
  rw [clean_data, imputeRows_eq] at hq
  obtain ⟨p, _, rfl⟩ := List.mem_map.mp hq
  have fillSome : ∀ (m : Option ℚ) (v : Option ℚ),
      m.isSome → (fillna m v).isSome := by
    intro m v hm
    cases v <;> simp [fillna, hm]
  exact ⟨fillSome _ _ (median_isSome hH), fillSome _ _ (median_isSome hW),
         fillSome _ _ (median_isSome hHi), fillSome _ _ (median_isSome hLo)⟩

/-- C2 witness: on `exBP` every pre-imputation column is nonempty and the
first cleaned row has all four measurements present. -/
theorem C2_witness :
    qA.height.isSome ∧ qA.weight.isSome ∧ qA.ap_hi.isSome ∧ qA.ap_lo.isSome :=
  C2_no_missing_after_clean exBP qA
    (by rw [clean_exBP]; simp)
    (by rw [preImpute_exBP]; simp [pA, pB, mkCRow, List.filterMap_cons])
    (by rw [preImpute_exBP]; simp [pA, pB, mkCRow, List.filterMap_cons])
    (by rw [preImpute_exBP]; simp [pA, pB, mkCRow, List.filterMap_cons])
    (by rw [preImpute_exBP]; simp [pA, pB, mkCRow, List.filterMap_cons])

/-! ### C10: valid values are never overwritten -/

theorem bpRow_height (r : CRow) : (bpRow r).height = r.height := by
  cases ha : r.ap_hi <;> cases hb : r.ap_lo <;> simp [bpRow, ha, hb]
  split <;> rfl

theorem bpRow_weight (r : CRow) : (bpRow r).weight = r.weight := by
  cases ha : r.ap_hi <;> cases hb : r.ap_lo <;> simp [bpRow, ha, hb]
  split <;> rfl

/-- C10: for a row surviving deduplication, any measurement value that parses
as numeric, lies inside its column's inclusive range, and (for the pressures)
is not part of a both-present pair with `ap_hi <= ap_lo` after coercion and
range validation, appears unchanged in the cleaned table. -/
theorem C10_valid_values_preserved (df : List Row) (i : ℕ) (r : Row) (q : CRow)
    (h1 : (dropDuplicates df).get? i = some r)
    (h2 : (clean_data df).get? i = some q) :
    (∀ v, toNumeric r.height = some v → 120 ≤ v → v ≤ 220 →
      q.height = some v) ∧
    (∀ v, toNumeric r.weight = some v → 35 ≤ v → v ≤ 200 →
      q.weight = some v) ∧
    (∀ v, toNumeric r.ap_hi = some v → 70 ≤ v → v ≤ 250 →
      (∀ w, rangeFilter 40 150 (toNumeric r.ap_lo) = some w → w < v) →
      q.ap_hi = some v) ∧
    (∀ v, toNumeric r.ap_lo = some v → 40 ≤ v → v ≤ 150 →
      (∀ w, rangeFilter 70 250 (toNumeric r.ap_hi) = some w → v < w) →
      q.ap_lo = some v) := by
  have h1p : (preImpute df).get? i = some (bpRow (rangeRow (coerceRow r))) := by
    unfold preImpute
    rw [List.get?_map, List.get?_map, List.get?_map, h1]
    rfl
  rw [clean_data_get?, h1p] at h2
  simp only [Option.map_some'] at h2
  obtain rfl := Option.some.inj h2
  have hlo2 : (rangeRow (coerceRow r)).ap_lo
      = rangeFilter 40 150 (toNumeric r.ap_lo) := by
    simp [rangeRow, coerceRow]
  have hhi2 : (rangeRow (coerceRow r)).ap_hi
      = rangeFilter 70 250 (toNumeric r.ap_hi) := by
    simp [rangeRow, coerceRow]
  refine ⟨?_, ?_, ?_, ?_⟩
  · intro v hv hb1 hb2
    have hrange : (rangeRow (coerceRow r)).height = some v := by
      simp [rangeRow, coerceRow, hv, rangeFilter, hb1, hb2]
    have hbp : (bpRow (rangeRow (coerceRow r))).height = some v := by
      rw [bpRow_height]
      exact hrange
    simp only [fillFour]
    rw [hbp]
    rfl
  · intro v hv hb1 hb2
    have hrange : (rangeRow (coerceRow r)).weight = some v := by
      simp [rangeRow, coerceRow, hv, rangeFilter, hb1, hb2]
    have hbp : (bpRow (rangeRow (coerceRow r))).weight = some v := by
      rw [bpRow_weight]
      exact hrange
    simp only [fillFour]
    rw [hbp]
    rfl
  · intro v hv hb1 hb2 hpair
    have hrange : (rangeRow (coerceRow r)).ap_hi = some v := by
      rw [hhi2, hv]
      simp [rangeFilter, hb1, hb2]
    have hbp : (bpRow (rangeRow (coerceRow r))).ap_hi = some v := by
      cases hw : rangeFilter 40 150 (toNumeric r.ap_lo) with
      | none => simp [bpRow, hrange, hlo2, hw]
      | some w =>
          have hwv : w < v := hpair w hw
          simp [bpRow, hrange, hlo2, hw, not_le.mpr hwv]
    simp only [fillFour]
    rw [hbp]
    rfl
  · intro v hv hb1 hb2 hpair
    have hrange : (rangeRow (coerceRow r)).ap_lo = some v := by
      rw [hlo2, hv]
      simp [rangeFilter, hb1, hb2]
    have hbp : (bpRow (rangeRow (coerceRow r))).ap_lo = some v := by
      cases hw : rangeFilter 70 250 (toNumeric r.ap_hi) with
      | none => simp [bpRow, hrange, hhi2, hw]
      | some w =>
          have hwv : v < w := hpair w hw
          simp [bpRow, hrange, hhi2, hw, not_le.mpr hwv]
    simp only [fillFour]
    rw [hbp]
    rfl

/-- C10 witness: the second row of `exBP` is fully valid and all four of its
measurement values survive cleaning unchanged. -/
theorem C10_witness :
    pB.height = some 160 ∧ pB.ap_hi = some 150 := by
  have h := C10_valid_values_preserved exBP 1 (mkRow 2 150 100) pB
    (by norm_num [exBP, dropDuplicates, dropDupAux, mkRow])
    (by rw [clean_exBP]; rfl)
  refine ⟨h.1 160 rfl (by norm_num) (by norm_num),
          h.2.2.1 150 rfl (by norm_num) (by norm_num) ?_⟩
  intro w hw
  simp [mkRow, toNumeric, rangeFilter] at hw
  rw [← hw.2]
  norm_num

/-! ### C8: the audit summary -/

theorem countP_congrList {α : Type} (p q : α → Bool) (l : List α)
    (h : ∀ a ∈ l, p a = q a) : l.countP p = l.countP q := by
  induction l with
  | nil => rfl
  | cons a xs ih =>
      rw [List.countP_cons, List.countP_cons, h a (List.mem_cons_self a xs),
        ih (fun b hb => h b (List.mem_cons_of_mem a hb))]

/-- Count of marked duplicates relative to an accumulator of already-seen
rows, mirroring the recursion of `dropDupAux`. -/
def countDupFrom {α : Type} [DecidableEq α] : List α → List α → ℕ
  | _, [] => 0
  | seen, x :: xs =>
      if x ∈ seen then 1 + countDupFrom seen xs
      else countDupFrom (x :: seen) xs

theorem dropDupAux_length {α : Type} [DecidableEq α] (l : List α) :
    ∀ seen : List α,
      (dropDupAux seen l).length + countDupFrom seen l = l.length := by
  induction l with
  | nil => intro seen; rfl
  | cons a xs ih =>
      intro seen
      by_cases ha : a ∈ seen
      · rw [show dropDupAux seen (a :: xs) = dropDupAux seen xs by
              simp [dropDupAux, ha],
            show countDupFrom seen (a :: xs) = 1 + countDupFrom seen xs by
              simp [countDupFrom, ha]]
        have := ih seen
        simp only [List.length_cons]
        omega
      · rw [show dropDupAux seen (a :: xs) = a :: dropDupAux (a :: seen) xs by
              simp [dropDupAux, ha],
            show countDupFrom seen (a :: xs) = countDupFrom (a :: seen) xs by
              simp [countDupFrom, ha]]
        have := ih (a :: seen)
        simp only [List.length_cons]
        omega

/-- Shifting the duplicate predicate across the head of the list. -/
theorem dup_pred_shift {α : Type} [DecidableEq α] (a : α) (xs seen : List α)
    (i : ℕ) :
    (∃ x, (a :: xs).get? (i + 1) = some x ∧
        (x ∈ seen ∨ ∃ j ∈ List.range (i + 1), (a :: xs).get? j = some x)) ↔
    (∃ x, xs.get? i = some x ∧
        (x ∈ a :: seen ∨ ∃ j ∈ List.range i, xs.get? j = some x)) := by
  apply exists_congr
  intro x
  have hrange : (∃ j ∈ List.range (i + 1), (a :: xs).get? j = some x) ↔
      (x = a ∨ ∃ j ∈ List.range i, xs.get? j = some x) := by
    constructor
    · rintro ⟨j, hj, hget⟩
      rw [List.mem_range] at hj
      cases j with
      | zero => exact Or.inl (Option.some.inj hget).symm
      | succ k => exact Or.inr ⟨k, List.mem_range.mpr (by omega), hget⟩
    · rintro (rfl | ⟨j, hj, hget⟩)
      · exact ⟨0, List.mem_range.mpr (Nat.succ_pos i), rfl⟩
      · rw [List.mem_range] at hj
        exact ⟨j + 1, List.mem_range.mpr (by omega), hget⟩
  rw [List.get?_cons_succ, hrange, List.mem_cons]
  tauto

theorem countDupFrom_spec {α : Type} [DecidableEq α] (l : List α) :
    ∀ seen : List α,
      countDupFrom seen l = (List.range l.length).countP
        (fun i => decide (∃ x, l.get? i = some x ∧
          (x ∈ seen ∨ ∃ j ∈ List.range i, l.get? j = some x))) := by
  induction l with
  | nil => intro seen; rfl
  | cons a xs ih =>
      intro seen
      rw [List.length_cons, List.range_succ_eq_map, List.countP_cons,
        List.countP_map]
      have hzero : (∃ x, (a :: xs).get? 0 = some x ∧
          (x ∈ seen ∨ ∃ j ∈ List.range 0, (a :: xs).get? j = some x)) ↔
          a ∈ seen := by
        constructor
        · rintro ⟨x, hx, h | ⟨j, hj, _⟩⟩
          · exact (Option.some.inj hx) ▸ h
          · simp at hj
        · intro ha
          exact ⟨a, rfl, Or.inl ha⟩
      by_cases ha : a ∈ seen
      · rw [show countDupFrom seen (a :: xs) = 1 + countDupFrom seen xs by
              simp [countDupFrom, ha]]
        rw [ih seen]
        have habsorb : ∀ i : ℕ,
            (fun i => decide (∃ x, xs.get? i = some x ∧
              (x ∈ seen ∨ ∃ j ∈ List.range i, xs.get? j = some x))) i =
            ((fun i => decide (∃ x, (a :: xs).get? i = some x ∧
              (x ∈ seen ∨ ∃ j ∈ List.range i, (a :: xs).get? j = some x)))
                ∘ Nat.succ) i := by
          intro i
          apply decide_eq_decide.mpr
          show _ ↔ (∃ x, (a :: xs).get? (i + 1) = some x ∧
            (x ∈ seen ∨ ∃ j ∈ List.range (i + 1), (a :: xs).get? j = some x))
          rw [dup_pred_shift]
          apply exists_congr
          intro x
          rw [List.mem_cons]
          constructor
          · rintro ⟨hg, hs | hr⟩
            exacts [⟨hg, Or.inl (Or.inr hs)⟩, ⟨hg, Or.inr hr⟩]
          · rintro ⟨hg, (rfl | hs) | hr⟩
            exacts [⟨hg, Or.inl ha⟩, ⟨hg, Or.inl hs⟩, ⟨hg, Or.inr hr⟩]
        rw [countP_congrList _ _ _ (fun i _ => habsorb i)]
        rw [if_pos (by rw [decide_eq_true_eq]; exact hzero.mpr ha)]
        omega
      · rw [show countDupFrom seen (a :: xs) = countDupFrom (a :: seen) xs by
              simp [countDupFrom, ha]]
        rw [ih (a :: seen)]
        have hshift : ∀ i : ℕ,
            (fun i => decide (∃ x, xs.get? i = some x ∧
              (x ∈ a :: seen ∨ ∃ j ∈ List.range i, xs.get? j = some x))) i =
            ((fun i => decide (∃ x, (a :: xs).get? i = some x ∧
              (x ∈ seen ∨ ∃ j ∈ List.range i, (a :: xs).get? j = some x)))
                ∘ Nat.succ) i := by
          intro i
          apply decide_eq_decide.mpr
          show _ ↔ (∃ x, (a :: xs).get? (i + 1) = some x ∧
            (x ∈ seen ∨ ∃ j ∈ List.range (i + 1), (a :: xs).get? j = some x))
          rw [dup_pred_shift]
        rw [countP_congrList _ _ _ (fun i _ => hshift i)]
        rw [if_neg (by rw [decide_eq_true_eq]; exact fun hc => ha (hzero.mp hc))]
        omega

theorem dupCount_eq_countDupFrom (l : List Row) :
    dupCount l = countDupFrom [] l := by
  rw [dupCount, countDupFrom_spec]
  apply countP_congrList
  intro i hi
  apply decide_eq_decide.mpr
  rw [List.mem_range] at hi
  have hsome : l.get? i = some (l.get ⟨i, hi⟩) := List.get?_eq_get hi
  constructor
  · rintro ⟨j, hj, he⟩
    exact ⟨l.get ⟨i, hi⟩, hsome, Or.inr ⟨j, hj, he.trans hsome⟩⟩
  · rintro ⟨x, hx, h | ⟨j, hj, hg⟩⟩
    · simp at h
    · exact ⟨j, hj, hg.trans (hx ▸ hsome ▸ rfl)⟩

theorem le_foldr_max (l : List ℚ) (a : ℚ) : ∀ x ∈ l, x ≤ l.foldr max a := by
  induction l with
  | nil => intro x hx; simp at hx
  | cons b xs ih =>
      intro x hx
      rcases List.mem_cons.mp hx with rfl | hx
      · exact le_max_left _ _
      · exact le_trans (ih x hx) (le_max_right _ _)

theorem foldr_max_choice (l : List ℚ) (a : ℚ) :
    l.foldr max a = a ∨ l.foldr max a ∈ l := by
  induction l with
  | nil => exact Or.inl rfl
  | cons b xs ih =>
      rcases max_choice b (xs.foldr max a) with h | h
      · exact Or.inr (by rw [List.foldr_cons, h]; exact List.mem_cons_self b xs)
      · rcases ih with h0 | hm
        · exact Or.inl (by rw [List.foldr_cons, h, h0])
        · exact Or.inr (by rw [List.foldr_cons, h]; exact List.mem_cons_of_mem b hm)

theorem missingFrac_nonneg (df : List Row) (c : Row → Cell) :
    0 ≤ missingFrac df c := by
  unfold missingFrac
  positivity

/-- C8: on a nonempty raw table, `audit_data` returns a single summary row
whose fields are the row count, the column count (13), the number of rows
equal to an earlier row (first occurrences not counted — equivalently, the
rows removed by deduplication), and the maximum over the thirteen columns of
the fraction of rows with a missing value (an upper bound on every column's
fraction, attained by some column). -/
theorem C8_audit (df : List Row) (hne : df ≠ []) :
    (audit_data df).rows = df.length ∧
    (audit_data df).columns = 13 ∧
    (audit_data df).duplicates = dupCount df ∧
    (audit_data df).duplicates + (dropDuplicates df).length = df.length ∧
    (∀ c ∈ colList, missingFrac df c ≤ (audit_data df).max_missing_frac) ∧
    (∃ c ∈ colList, (audit_data df).max_missing_frac = missingFrac df c) := by
  refine ⟨rfl, rfl, rfl, ?_, ?_, ?_⟩
  · show dupCount df + (dropDuplicates df).length = df.length
    rw [dupCount_eq_countDupFrom]
    have h := dropDupAux_length df []
    unfold dropDuplicates
    omega
  · intro c hc
    exact le_foldr_max _ 0 _ (List.mem_map_of_mem (missingFrac df) hc)
  · rcases foldr_max_choice (colList.map (missingFrac df)) 0 with h0 | hm
    · refine ⟨Row.id, by simp [colList], ?_⟩
      have hb := le_foldr_max (colList.map (missingFrac df)) 0 _
        (List.mem_map_of_mem (missingFrac df) (show Row.id ∈ colList by simp [colList]))
      have hn := missingFrac_nonneg df Row.id
      show (colList.map (missingFrac df)).foldr max 0 = missingFrac df Row.id
      rw [h0] at hb ⊢
      linarith
    · obtain ⟨c, hc, he⟩ := List.mem_map.mp hm
      exact ⟨c, hc, he.symm⟩

/-- C8 witness: the audit of `exBP` reports 2 rows, 13 columns, 0 duplicates
(2 surviving rows under dedup), and its maximum missing fraction bounds every
column's fraction. -/
theorem C8_witness :
    (audit_data exBP).rows = exBP.length ∧
    (audit_data exBP).columns = 13 ∧
    (audit_data exBP).duplicates + (dropDuplicates exBP).length = exBP.length := by
  have h := C8_audit exBP (by simp [exBP])
  exact ⟨h.1, h.2.1, h.2.2.2.1⟩
